import Mathlib

/-!
# Morse Code Coach: a shallow embedding of `src/morse-trainer/src/App.jsx`

JavaScript strings are modelled as lists of characters, object property
lookup as a partial function, asynchronous playback as the ordered trace of
the effects it performs, and the React state of each practice mode as a
record transformed by the event handlers. Times are whole milliseconds
(`performance.now()` may return fractions of one; the timer delays are whole).
-/

namespace MorseCoach

/-- A JavaScript string as the list of its characters. JavaScript indexes strings
by UTF-16 code unit; for the characters of the Basic Multilingual Plane, the
only ones the table, the word list and the properties below involve, that is
the same as indexing by character. -/
abbrev JsString := List Char

/-! ## The code table and the word list -/

/-- The object literal `MORSE` (App.jsx lines 4-14), entry by entry in source order. -/
def MORSE_entries : List (Char × JsString) :=
  [ ('A', ".-".toList),   ('B', "-...".toList), ('C', "-.-.".toList), ('D', "-..".toList),
    ('E', ".".toList),    ('F', "..-.".toList), ('G', "--.".toList),  ('H', "....".toList),
    ('I', "..".toList),   ('J', ".---".toList), ('K', "-.-".toList),  ('L', ".-..".toList),
    ('M', "--".toList),   ('N', "-.".toList),   ('O', "---".toList),  ('P', ".--.".toList),
    ('Q', "--.-".toList), ('R', ".-.".toList),  ('S', "...".toList),  ('T', "-".toList),
    ('U', "..-".toList),  ('V', "...-".toList), ('W', ".--".toList),  ('X', "-..-".toList),
    ('Y', "-.--".toList), ('Z', "--..".toList),
    ('0', "-----".toList), ('1', ".----".toList), ('2', "..---".toList), ('3', "...--".toList),
    ('4', "....-".toList), ('5', ".....".toList), ('6', "-....".toList), ('7', "--...".toList),
    ('8', "---..".toList), ('9', "----.".toList) ]

/-- The property read `MORSE[k]`: every own key of the object is a one-character
string, so any other string reads `undefined` (`none`). -/
def MORSE (k : JsString) : Option JsString :=
  match k with
  | [c] => MORSE_entries.lookup c
  | _ => none

/-- The result of `Object.keys(MORSE)`: JavaScript lists the integer-like keys
first (in ascending order, which is their source order here), then the other
keys in insertion order. -/
def keys : List JsString :=
  ((MORSE_entries.filter (fun e => e.1.isDigit)).map (fun e => [e.1])) ++
  ((MORSE_entries.filter (fun e => !e.1.isDigit)).map (fun e => [e.1]))

/-- The array literal of `WORDS` (App.jsx lines 17-23) before its `.filter`. -/
def WORDS_literal : List JsString :=
  [
    "CAT".toList, "DOG".toList, "SUN".toList, "RUN".toList, "LOW".toList, "RUN".toList,
    "SAD".toList, "CAN".toList, "CAR".toList, "WHY".toList, "MOON".toList, "STAR".toList,
    "TREE".toList, "FIRE".toList, "WIND".toList, "RAIN".toList, "MEET".toList, "DAY".toList,
    "NIGHT".toList, "CANDY".toList, "PHONE".toList, "CODE".toList, "BEEP".toList, "SIGN".toList,
    "WAVE".toList, "TIME".toList, "NOTE".toList, "HELP".toList, "SAFE".toList, "RENT".toList,
    "FALL".toList, "BACK".toList, "MOVIE".toList, "GAME".toList, "BOOK".toList, "FOOD".toList,
    "WALK".toList, "LEARN".toList, "AXE".toList, "BEE".toList, "CLOUD".toList, "CUP".toList,
    "BAG".toList, "HAT".toList, "MAP".toList, "KEY".toList, "RING".toList, "FISH".toList,
    "BIRD".toList, "DUCK".toList, "FROG".toList, "LION".toList, "BEAR".toList, "WOLF".toList,
    "COW".toList, "PIG".toList, "SHEEP".toList, "GOAT".toList, "HEN".toList, "FOX".toList,
    "HATE".toList, "SPORT".toList, "NORTH".toList, "SOUTH".toList, "EAST".toList, "WEST".toList,
    "SLOW".toList, "FAST".toList, "LIGHT".toList, "DARK".toList, "LOVE".toList, "FEAR".toList,
    "SING".toList, "JUMP".toList, "SONG".toList, "GOLF".toList, "GREAT".toList, "CITY".toList,
    "TOWN".toList, "OWL".toList, "OWNER".toList, "SOS".toList, "HELLO".toList, "WORLD".toList,
    "MORSE".toList, "RADIO".toList, "SOUND".toList, "LIGHT".toList, "BRAVE".toList, "QUEUE".toList,
    "WHERE".toList, "THING".toList, "HOUSE".toList, "PLANE".toList, "TRAIN".toList, "EARTH".toList,
    "ZOO".toList, "ZONE".toList, "ALL".toList, "ANT".toList, "AWARD".toList, "PLANT".toList,
    "STONE".toList, "RIVER".toList, "OCEAN".toList, "MUSIC".toList, "DANCE".toList, "PEACE".toList,
    "HAPPY".toList, "QUICK".toList, "SMART".toList, "STRONG".toList, "QUIZ".toList, "ZEBRA".toList,
    "QUEST".toList, "JAZZ".toList, "FRUIT".toList, "BUILD".toList, "START".toList, "END".toList,
    "123".toList, "404".toList, "911".toList, "2024".toList, "007".toList, "1998".toList,
    "1984".toList, "3002".toList, "51".toList, "666".toList, "948".toList, "12".toList,
    "781".toList, "369".toList, "256".toList, "519".toList ]

/-- The constant `WORDS`: the literal filtered by `w.length >= 3 && w.length <= 6`. -/
def WORDS : List JsString :=
  WORDS_literal.filter (fun w => decide (w.length ≥ 3) && decide (w.length ≤ 6))

/-- The character class `[A-Z0-9]`, whose complement the dictation input filter
deletes (App.jsx line 448). -/
def isAZ09 (c : Char) : Bool :=
  (decide ('A' ≤ c) && decide (c ≤ 'Z')) || (decide ('0' ≤ c) && decide (c ≤ '9'))

/-- Modelled from the spec: the inverse lookup "the character whose pattern
equals a given pattern". The source has no decoding function; this one scans
the entries of `MORSE` for the pattern. -/
def decode (p : JsString) : Option Char :=
  (MORSE_entries.find? (fun e => e.2 == p)).map Prod.fst

/-- The thirty-six characters A-Z and 0-9. -/
def alphabet : List Char := "ABCDEFGHIJKLMNOPQRSTUVWXYZ0123456789".toList

/-! ## String built-ins used by the graders -/

/-- The code points `String.prototype.trim` strips: ECMAScript WhiteSpace
(TAB, VT, FF, ZWNBSP and the Unicode space separators) and LineTerminator
(LF, CR, LS, PS). -/
def isJsWhitespace (c : Char) : Bool :=
  let n := c.toNat
  n == 0x09 || n == 0x0A || n == 0x0B || n == 0x0C || n == 0x0D || n == 0x20 ||
  n == 0xA0 || n == 0x1680 || (decide (0x2000 ≤ n) && decide (n ≤ 0x200A)) ||
  n == 0x2028 || n == 0x2029 || n == 0x202F || n == 0x205F || n == 0x3000 || n == 0xFEFF

/-- The method `String.prototype.trim`. -/
def trim (s : JsString) : JsString :=
  ((s.dropWhile isJsWhitespace).reverse.dropWhile isJsWhitespace).reverse

/-- Upper-casing of one character as `String.prototype.toUpperCase` does it:
on ASCII, a-z go to A-Z and everything else stays; the Unicode case tables
for the other characters are not part of the repository and are supplied as
the parameter `ext` (a character may map to several, as U+00DF does). -/
def upperChar (ext : Char → JsString) (c : Char) : JsString :=
  if c.toNat < 128 then [c.toUpper] else ext c

/-- The method `String.prototype.toUpperCase`, character by character. -/
def toUpperCase (ext : Char → JsString) (s : JsString) : JsString :=
  s.flatMap (upperChar ext)

/-! ## Playback -/

/-- The observable effects of playback code, in the order they are performed. -/
inductive Effect where
  /-- An oscillator is started at the current time and stopped `durationMs`
  later (plus the 20 ms release tail); the call that does it returns at once. -/
  | tone (durationMs : Nat)
  /-- The caller is suspended for `ms` milliseconds (`await sleep(ms)`). -/
  | wait (ms : Nat)
  deriving DecidableEq, Repr

/-- The function `beep` (App.jsx lines 41-60): after `ensureCtx`, it creates the
oscillator, schedules its start and stop, and returns. Its body has no `await`
on the duration, so `await beep(d)` suspends the caller for no modelled time. -/
def beep (durationMs : Nat) : List Effect := [Effect.tone durationMs]

/-- The function `sleep` (App.jsx lines 75-77): a promise resolved by `setTimeout(r, ms)`. -/
def sleep (ms : Nat) : List Effect := [Effect.wait ms]

/-- The loop body of `playMorse` from index `i` on, `rest` being the characters
`pattern[i], pattern[i+1], ...` and `len` being `pattern.length`. -/
def playMorseLoop (unitMs len : Nat) : Nat → List Char → List Effect
  | _, [] => []
  | i, ch :: rest =>
    (if ch = '.' then beep unitMs else []) ++
    (if ch = '-' then beep (unitMs * 3) else []) ++
    (if i < len - 1 then sleep unitMs else []) ++
    playMorseLoop unitMs len (i + 1) rest

/-- The function `playMorse` (App.jsx lines 62-70). -/
def playMorse (pattern : JsString) (unitMs : Nat) : List Effect :=
  playMorseLoop unitMs pattern.length 0 pattern

/-- A scheduled tone: when its oscillator starts and for how long it sounds. -/
structure Tone where
  start : Nat
  durationMs : Nat
  deriving DecidableEq, Repr

/-- The caller's clock and the tones scheduled so far. -/
structure Timeline where
  now : Nat
  tones : List Tone
  deriving DecidableEq, Repr

/-- Performing one effect. -/
def Effect.run : Effect → Timeline → Timeline
  | Effect.tone d, tl => { tl with tones := tl.tones ++ [⟨tl.now, d⟩] }
  | Effect.wait ms, tl => { tl with now := tl.now + ms }

/-- Performing a trace of effects in order. -/
def runEffects (es : List Effect) (tl : Timeline) : Timeline :=
  es.foldl (fun acc e => e.run acc) tl

/-- How long a trace keeps its caller suspended: the sum of its waits. -/
def elapsed (es : List Effect) : Nat := (runEffects es ⟨0, []⟩).now

/-- The tones a trace schedules when started at time 0. -/
def tonesOf (es : List Effect) : List Tone := (runEffects es ⟨0, []⟩).tones

/-- The calls `playWord` awaits, in order. -/
inductive WordCall where
  /-- The call `playMorse(pattern, { unitMs })`. -/
  | playMorse (pattern : JsString) (unitMs : Nat)
  /-- The call `sleep(ms)`. -/
  | sleep (ms : Nat)
  deriving DecidableEq, Repr

/-- The loop body of `playWord` from index `i` on, `rest` being the characters
`word[i], word[i+1], ...` and `len` being `word.length`. -/
def playWordLoop (ext : Char → JsString) (unitMs len : Nat) : Nat → List Char → List WordCall
  | _, [] => []
  | i, c :: rest =>
    match MORSE (upperChar ext c) with
    | none => playWordLoop ext unitMs len (i + 1) rest
    | some pattern =>
      if pattern = [] then playWordLoop ext unitMs len (i + 1) rest
      else
        [WordCall.playMorse pattern unitMs] ++
        (if i < len - 1 then [WordCall.sleep (unitMs * 3)] else []) ++
        playWordLoop ext unitMs len (i + 1) rest

/-- The function `playWord` (App.jsx lines 159-172), as the calls it awaits;
`unitMs` is the component state it closes over. -/
def playWord (ext : Char → JsString) (word : JsString) (unitMs : Nat) : List WordCall :=
  playWordLoop ext unitMs word.length 0 word

/-- The effects of one awaited call of `playWord`. -/
def WordCall.effects : WordCall → List Effect
  | WordCall.playMorse pattern unitMs => MorseCoach.playMorse pattern unitMs
  | WordCall.sleep ms => MorseCoach.sleep ms

/-- The effects of `playWord`, call after call. -/
def playWordEffects (ext : Char → JsString) (word : JsString) (unitMs : Nat) : List Effect :=
  (playWord ext word unitMs).flatMap WordCall.effects

/-! ## Random targets -/

/-- A value returned by `Math.random()`: a fraction `num / den` in `[0, 1)`. -/
structure MathRandom where
  num : Nat
  den : Nat
  lt : num < den

/-- The expression `Math.floor(Math.random() * n)`, an index below `n`. -/
def randomIndex (r : MathRandom) (n : Nat) (hn : 0 < n) : Fin n :=
  ⟨r.num * n / r.den, by
    have hd : 0 < r.den := Nat.lt_of_le_of_lt (Nat.zero_le _) r.lt
    rw [Nat.div_lt_iff_lt_mul hd, Nat.mul_comm n r.den]
    exact Nat.mul_lt_mul_of_pos_right r.lt hn⟩

/-- The function `randomKey` (App.jsx lines 174-177). -/
def randomKey (r : MathRandom) : JsString :=
  keys.get (randomIndex r keys.length (by decide))

/-- The function `randomWord` (App.jsx lines 155-157). -/
def randomWord (r : MathRandom) : JsString :=
  WORDS.get (randomIndex r WORDS.length (by decide!))

/-! ## Recognise-by-ear and dictation graders -/

/-- The values `"ok"` and `"nope"` of the result states; `null` is `none`. -/
inductive Result where
  | ok
  | nope
  deriving DecidableEq, Repr

/-- What a grader passes to `setTimeout` for the autoplay of the next target. -/
inductive Autoplay where
  /-- The callback `() => playMorse(MORSE[next], {unitMs})`. -/
  | morse (pattern : Option JsString) (unitMs : Nat)
  /-- The callback `() => playWord(next)`. -/
  | word (next : JsString) (unitMs : Nat)
  deriving DecidableEq, Repr

/-- The state of the "Read" tab (App.jsx lines 101-104). -/
structure PracticeState where
  practiceTarget : JsString
  answer : JsString
  result : Option Result
  streak : Nat
  deriving DecidableEq, Repr

/-- The function `checkAnswer` (App.jsx lines 184-199): the next state and the
timeouts it sets, each with its delay. `r` is what `Math.random()` returns if
called. -/
def checkAnswer (ext : Char → JsString) (r : MathRandom) (unitMs : Nat) (s : PracticeState) :
    PracticeState × List (Nat × Autoplay) :=
  let a := toUpperCase ext (trim s.answer)
  if a = [] then (s, [])
  else if a = s.practiceTarget then
    let next := randomKey r
    ({ practiceTarget := next, answer := [], result := some Result.ok, streak := s.streak + 1 },
     [(250, Autoplay.morse (MORSE next) unitMs)])
  else
    ({ s with result := some Result.nope, streak := 0 }, [])

/-- The state of the "Listen" tab (App.jsx lines 120-123). -/
structure ListenState where
  listenWord : JsString
  listenAnswer : JsString
  listenResult : Option Result
  listenStreak : Nat
  deriving DecidableEq, Repr

/-- The function `checkListening` (App.jsx lines 130-146). -/
def checkListening (ext : Char → JsString) (r : MathRandom) (unitMs : Nat) (s : ListenState) :
    ListenState × List (Nat × Autoplay) :=
  let a := toUpperCase ext (trim s.listenAnswer)
  if a = [] then (s, [])
  else if a = s.listenWord then
    let next := randomWord r
    ({ listenWord := next, listenAnswer := [], listenResult := some Result.ok,
       listenStreak := s.listenStreak + 1 },
     [(300, Autoplay.word next unitMs)])
  else
    ({ s with listenResult := some Result.nope, listenStreak := 0 }, [])

/-- The `onChange` handler of the dictation input (App.jsx lines 447-450):
the typed value is upper-cased, stripped of every character outside
`[A-Z0-9]`, and stored; the result banner is reset. (The input's `maxLength` of
6 is the length of the longest word and is not modelled.) -/
def onListenAnswerChange (ext : Char → JsString) (value : JsString) (s : ListenState) :
    ListenState :=
  { s with listenAnswer := (toUpperCase ext value).filter isAZ09, listenResult := none }

/-! ## The "Write" tab: gesture decoder, auto-submit timer and grader -/

/-- The constant `HOLD_THRESHOLD` (App.jsx line 116). -/
def HOLD_THRESHOLD : Int := 220

/-- The constant `AUTO_SUBMIT_GAP` (App.jsx line 117). -/
def AUTO_SUBMIT_GAP : Nat := 900

/-- The callbacks the "Write" tab passes to `setTimeout`. -/
inductive TimerAction where
  /-- The callback `() => checkWrite(nextPattern)` of `scheduleAutoSubmit`;
  `target` is the `writeTarget` its closure sees. -/
  | autoSubmit (nextPattern : JsString) (target : JsString)
  /-- The callback `() => nextWriteTarget()` of `checkWrite`. -/
  | nextTarget
  deriving DecidableEq, Repr

/-- A pending timeout of the event loop. -/
structure Timer where
  id : Nat
  due : Nat
  action : TimerAction
  deriving DecidableEq, Repr

/-- The state of the "Write" tab (App.jsx lines 107-114), the clock, the pending
timeouts, and a log of the `checkWrite` calls made by the auto-submit timer. -/
structure WriteState where
  /-- The current time in milliseconds (`performance.now()` and the timer clock). -/
  now : Nat
  writeTarget : JsString
  inputPattern : JsString
  writeResult : Option Result
  writeStreak : Nat
  isHolding : Bool
  /-- The value of `holdStartRef.current`. -/
  holdStart : Nat
  /-- The value of `holdTimeoutRef.current`: `null` or a timer handle (handles are
  positive integers, so a stored handle is always truthy). -/
  holdTimeout : Option Nat
  /-- The pending timeouts, oldest first. -/
  timers : List Timer
  /-- The handle the next `setTimeout` returns. -/
  nextId : Nat
  /-- The number of `Math.random()` calls made so far. -/
  draws : Nat
  /-- The log of auto-submits: firing time and submitted pattern. -/
  submitted : List (Nat × JsString)
  deriving DecidableEq, Repr

/-- The call `clearTimeout(id)`. -/
def clearTimeout (id : Nat) (s : WriteState) : WriteState :=
  { s with timers := s.timers.filter (fun t => t.id != id) }

/-- The statement `if (holdTimeoutRef.current) clearTimeout(holdTimeoutRef.current)`. -/
def clearHoldTimeout (s : WriteState) : WriteState :=
  match s.holdTimeout with
  | some id => clearTimeout id s
  | none => s

/-- The call `setTimeout(action, delay)`, returning the new handle with the state. -/
def setTimeout (action : TimerAction) (delay : Nat) (s : WriteState) : Nat × WriteState :=
  (s.nextId,
   { s with timers := s.timers ++ [⟨s.nextId, s.now + delay, action⟩], nextId := s.nextId + 1 })

/-- The function `scheduleAutoSubmit` (App.jsx lines 201-207). -/
def scheduleAutoSubmit (nextPattern : JsString) (s : WriteState) : WriteState :=
  let s1 := clearHoldTimeout s
  let (id, s2) := setTimeout (TimerAction.autoSubmit nextPattern s.writeTarget) AUTO_SUBMIT_GAP s1
  { s2 with holdTimeout := some id }

/-- The function `addSymbol` (App.jsx lines 209-216). -/
def addSymbol (sym : Char) (s : WriteState) : WriteState :=
  let next := s.inputPattern ++ [sym]
  let s1 := { s with writeResult := none }
  let s2 := scheduleAutoSubmit next s1
  { s2 with inputPattern := next }

/-- The function `clearWrite` (App.jsx lines 219-223). -/
def clearWrite (s : WriteState) : WriteState :=
  clearHoldTimeout { s with inputPattern := [], writeResult := none }

/-- The function `nextWriteTarget` (App.jsx lines 225-228). -/
def nextWriteTarget (r : MathRandom) (s : WriteState) : WriteState :=
  clearWrite { s with writeTarget := randomKey r }

/-- The function `checkWrite` (App.jsx lines 230-244), called with an explicit
pattern; `target` is the `writeTarget` the closure sees. -/
def checkWrite (target : JsString) (pattern : JsString) (s : WriteState) : WriteState :=
  let expected := MORSE target
  let got := pattern
  if got = [] then s
  else if some got = expected then
    (setTimeout TimerAction.nextTarget 600
      { s with writeResult := some Result.ok, writeStreak := s.writeStreak + 1 }).2
  else
    { s with writeResult := some Result.nope, writeStreak := 0 }

/-- The function `onPressStart` (App.jsx lines 247-251). -/
def onPressStart (s : WriteState) : WriteState :=
  { s with isHolding := true, holdStart := s.now }

/-- The function `onPressEnd` (App.jsx lines 253-261). -/
def onPressEnd (s : WriteState) : WriteState :=
  if !s.isHolding then s
  else
    let s1 := { s with isHolding := false }
    let duration : Int := (s.now : Int) - (s.holdStart : Int)
    let sym := if duration ≥ HOLD_THRESHOLD then '-' else '.'
    addSymbol sym s1

/-- The effect on leaving the "Write" tab (App.jsx lines 262-266). -/
def onLeaveWriteTab (s : WriteState) : WriteState :=
  clearHoldTimeout s

/-- Running the callback of a timeout that has come due. -/
def fire (rand : Nat → MathRandom) (t : Timer) (s : WriteState) : WriteState :=
  match t.action with
  | TimerAction.autoSubmit nextPattern target =>
    checkWrite target nextPattern { s with submitted := s.submitted ++ [(s.now, nextPattern)] }
  | TimerAction.nextTarget =>
    nextWriteTarget (rand s.draws) { s with draws := s.draws + 1 }

/-- The pending timeout that fires first: the least due time, the older one on a tie. -/
def earliest : List Timer → Option Timer
  | [] => none
  | t :: ts =>
    match earliest ts with
    | none => some t
    | some u => if u.due < t.due then some u else some t

/-- Taking a due timeout off the pending list and moving the clock to its due time. -/
def dequeue (t : Timer) (s : WriteState) : WriteState :=
  { s with now := max s.now t.due, timers := s.timers.filter (fun u => u.id != t.id) }

/-- The event loop up to time `limit`: while a timeout is due by `limit`, the
earliest one is taken off the list, the clock is moved to its due time and its
callback runs; then the clock is moved to `limit`. `fuel` bounds the number of
callbacks. -/
def advanceTo (rand : Nat → MathRandom) : Nat → Nat → WriteState → WriteState
  | 0, limit, s => { s with now := max s.now limit }
  | fuel + 1, limit, s =>
    match earliest (s.timers.filter (fun t => decide (t.due ≤ limit))) with
    | none => { s with now := max s.now limit }
    | some t => advanceTo rand fuel limit (fire rand t (dequeue t s))

/-- Letting `dt` milliseconds pass. A callback can set at most one further
timeout, and only an auto-submit does, so twice the number of pending timeouts
bounds the callbacks that run. -/
def advance (rand : Nat → MathRandom) (dt : Nat) (s : WriteState) : WriteState :=
  advanceTo rand (2 * s.timers.length + 1) (s.now + dt) s

/-- The "Write" tab as mounted at time 0 with the given first target. -/
def initWrite (target : JsString) : WriteState :=
  { now := 0, writeTarget := target, inputPattern := [], writeResult := none, writeStreak := 0,
    isHolding := false, holdStart := 0, holdTimeout := none, timers := [], nextId := 1,
    draws := 0, submitted := [] }

/-- A run of the gesture decoder: wait `gap` milliseconds, then append `sym`, for
each `(gap, sym)` in order. -/
def appendRun (rand : Nat → MathRandom) : List (Nat × Char) → WriteState → WriteState
  | [], s => s
  | (gap, sym) :: rest, s => appendRun rand rest (addSymbol sym (advance rand gap s))

/-- The number of auto-submit timeouts pending. -/
def pendingAutoSubmits (s : WriteState) : Nat :=
  (s.timers.filter (fun t => t.action != TimerAction.nextTarget)).length

/-! ## Reference values used to state the properties -/

/-- The tone one symbol schedules when its turn comes at time `start`: a dot
sounds for one unit, a dash for three, any other character not at all. -/
def symbolTone (unitMs start : Nat) (ch : Char) : List Tone :=
  (if ch = '.' then [⟨start, unitMs⟩] else []) ++ (if ch = '-' then [⟨start, unitMs * 3⟩] else [])

/-- Tones whose onsets are one unit apart, symbol after symbol, from time `t`. -/
def onsetTones (unitMs : Nat) : Nat → List Char → List Tone
  | _, [] => []
  | t, ch :: rest => symbolTone unitMs t ch ++ onsetTones unitMs (t + unitMs) rest

/-- A typed string that equals the word `w` up to letter case: same length, and
each character is the word's character or its lower-case form. -/
def EqUpToCase (typed w : JsString) : Prop :=
  List.Forall₂ (fun a b => a = b ∨ a = b.toLower) typed w

/-- An upper-casing of the non-ASCII characters that changes none of them, for
evaluating the graders on ASCII input. -/
def asciiOnly : Char → JsString := fun c => [c]

/-- A `Math.random()` result of 0. -/
def zeroRandom : MathRandom := ⟨0, 1, by decide⟩

/-- A `Math.random()` that returns 0 at every call. -/
def zeroRandoms : Nat → MathRandom := fun _ => zeroRandom

/-- What one awaited call of `playWord` does to the timeline. A `playMorse` call
returns `pattern.length - 1` units after it starts, having scheduled its tones
with onsets one unit apart; a `sleep` only moves the clock. -/
def WordCall.run : WordCall → Timeline → Timeline
  | WordCall.playMorse pattern unitMs, tl =>
    ⟨tl.now + (pattern.length - 1) * unitMs, tl.tones ++ onsetTones unitMs tl.now pattern⟩
  | WordCall.sleep ms, tl => ⟨tl.now + ms, tl.tones⟩

/-- Whether an awaited call of `playWord` is a `sleep`. -/
def WordCall.isSleep : WordCall → Bool
  | WordCall.sleep _ => true
  | WordCall.playMorse _ _ => false

/-- Exactly one timeout is pending, and it is the auto-submit of the current
input pattern, set at the current time and held in `holdTimeoutRef`. -/
def Armed (s : WriteState) : Prop :=
  ∃ id, s.timers = [⟨id, s.now + AUTO_SUBMIT_GAP,
      TimerAction.autoSubmit s.inputPattern s.writeTarget⟩] ∧ s.holdTimeout = some id

/-- The bookkeeping of timer handles is consistent: a pending auto-submit is the
one whose handle `holdTimeoutRef` holds, pending handles are older than the next
handle, and no two pending timeouts share a handle. -/
def WellFormed (s : WriteState) : Prop :=
  (∀ t ∈ s.timers, t.action ≠ TimerAction.nextTarget → s.holdTimeout = some t.id) ∧
  (∀ t ∈ s.timers, t.id < s.nextId) ∧
  (s.timers.map Timer.id).Nodup

/-- The states the "Write" tab can be in: the mounted tab, then any sequence of
handler calls and passages of time. -/
inductive Reachable (rand : Nat → MathRandom) : WriteState → Prop where
  | mount (target : JsString) : Reachable rand (initWrite target)
  | pressStart (s : WriteState) : Reachable rand s → Reachable rand (onPressStart s)
  | pressEnd (s : WriteState) : Reachable rand s → Reachable rand (onPressEnd s)
  | append (sym : Char) (s : WriteState) : Reachable rand s → Reachable rand (addSymbol sym s)
  | clear (s : WriteState) : Reachable rand s → Reachable rand (clearWrite s)
  | leaveTab (s : WriteState) : Reachable rand s → Reachable rand (onLeaveWriteTab s)
  | wait (dt : Nat) (s : WriteState) : Reachable rand s → Reachable rand (advance rand dt s)

/-- The callbacks a pending timeout can still cause: its own, and for an
auto-submit the advance to the next target it may schedule. -/
def timerWeight (t : Timer) : Nat :=
  match t.action with
  | TimerAction.autoSubmit _ _ => 2
  | TimerAction.nextTarget => 1

/-- The callbacks the pending timeouts can still cause. -/
def pendingWork (ts : List Timer) : Nat := (ts.map timerWeight).sum

/-! # Properties -/

/-! ## The code table -/

theorem ofNat_mem_alphabet_upper (n : Nat) (h1 : 65 ≤ n) (h2 : n ≤ 90) :
    Char.ofNat n ∈ alphabet := by
  interval_cases n <;> decide

theorem ofNat_mem_alphabet_digit (n : Nat) (h1 : 48 ≤ n) (h2 : n ≤ 57) :
    Char.ofNat n ∈ alphabet := by
  interval_cases n <;> decide

theorem char_le_iff (a b : Char) : a ≤ b ↔ a.toNat ≤ b.toNat := by
  show a.val ≤ b.val ↔ _
  rw [UInt32.le_def]
  rfl

theorem mem_alphabet_of_isAZ09 (c : Char) (h : isAZ09 c = true) : c ∈ alphabet := by
  have hc : Char.ofNat c.toNat = c := Char.ofNat_toNat c
  simp only [isAZ09, Bool.or_eq_true, Bool.and_eq_true, decide_eq_true_eq, char_le_iff] at h
  rcases h with ⟨h1, h2⟩ | ⟨h1, h2⟩
  · rw [← hc]; exact ofNat_mem_alphabet_upper _ h1 h2
  · rw [← hc]; exact ofNat_mem_alphabet_digit _ h1 h2

theorem isAZ09_of_mem_alphabet : ∀ c ∈ alphabet, isAZ09 c = true := by decide

theorem lookup_mem_keys (c : Char) (p : JsString) :
    ∀ (l : List (Char × JsString)), l.lookup c = some p → c ∈ l.map Prod.fst := by
  intro l
  induction l with
  | nil => simp
  | cons e l ih =>
    obtain ⟨k, v⟩ := e
    intro hl
    by_cases hk : c = k
    · simp [hk]
    · have hb : (c == k) = false := by simpa using hk
      rw [List.lookup_cons, hb] at hl
      simp [ih hl]

theorem MORSE_key_mem_alphabet (c : Char) (p : JsString) (h : MORSE [c] = some p) :
    c ∈ alphabet := by
  have hx := lookup_mem_keys c p MORSE_entries h
  have hm : MORSE_entries.map Prod.fst = alphabet := by decide
  rwa [hm] at hx

theorem MORSE_table_facts :
    ∀ c ∈ alphabet, ∃ p, MORSE [c] = some p ∧ p ≠ [] ∧ decode p = some c ∧
      ∀ c2 ∈ alphabet, MORSE [c2] = some p → c2 = c := by
  decide!

/-- C1: every character among A-Z and 0-9 has a pattern in `MORSE`, the pattern
is non-empty, no other character has the same pattern, and looking the pattern
up in the table gives the character back. -/
theorem MORSE_nonempty_injective_roundtrip (c : Char) (hc : isAZ09 c = true) :
    ∃ p, MORSE [c] = some p ∧ p ≠ [] ∧ (∀ c2 : Char, MORSE [c2] = some p → c2 = c) ∧
      decode p = some c := by
  obtain ⟨p, h1, h2, h3, h4⟩ := MORSE_table_facts c (mem_alphabet_of_isAZ09 c hc)
  exact ⟨p, h1, h2, fun c2 h => h4 c2 (MORSE_key_mem_alphabet c2 p h) h, h3⟩

theorem MORSE_nonempty_injective_roundtrip_witness :
    isAZ09 'Q' = true ∧
    ∃ p, MORSE ['Q'] = some p ∧ p ≠ [] ∧ (∀ c2 : Char, MORSE [c2] = some p → c2 = 'Q') ∧
      decode p = some 'Q' :=
  ⟨by decide, MORSE_nonempty_injective_roundtrip 'Q' (by decide)⟩

/-! ## Playback timing -/

theorem runEffects_append (es fs : List Effect) (tl : Timeline) :
    runEffects (es ++ fs) tl = runEffects fs (runEffects es tl) := by
  simp [runEffects, List.foldl_append]

theorem runEffects_symbol (unitMs : Nat) (ch : Char) (tl : Timeline) :
    runEffects ((if ch = '.' then beep unitMs else []) ++
        (if ch = '-' then beep (unitMs * 3) else [])) tl
      = ⟨tl.now, tl.tones ++ symbolTone unitMs tl.now ch⟩ := by
  by_cases h1 : ch = '.'
  · subst h1
    simp [runEffects, beep, Effect.run, symbolTone]
  · by_cases h2 : ch = '-'
    · subst h2
      simp [runEffects, beep, Effect.run, symbolTone]
    · simp [runEffects, h1, h2, symbolTone]

theorem runEffects_playMorseLoop (unitMs len : Nat) (rest : List Char) :
    ∀ (i : Nat) (tl : Timeline), i + rest.length = len →
      runEffects (playMorseLoop unitMs len i rest) tl
        = ⟨tl.now + (rest.length - 1) * unitMs, tl.tones ++ onsetTones unitMs tl.now rest⟩ := by
  induction rest with
  | nil => intro i tl _; simp [playMorseLoop, runEffects, onsetTones]
  | cons ch rest ih =>
    intro i tl hlen
    have hlen2 : (i + 1) + rest.length = len := by simp at hlen; omega
    rw [playMorseLoop, List.append_assoc, runEffects_append, runEffects_append,
      runEffects_symbol, ih (i + 1) _ hlen2]
    cases rest with
    | nil =>
      have hi : ¬ i < len - 1 := by simp at hlen; omega
      simp [hi, runEffects, onsetTones]
    | cons c2 r2 =>
      have hi : i < len - 1 := by simp at hlen; omega
      simp [hi, runEffects, sleep, Effect.run, onsetTones, Nat.add_mul, Nat.add_assoc,
        Nat.add_comm unitMs]

theorem runEffects_playMorse (pattern : JsString) (unitMs : Nat) (tl : Timeline) :
    runEffects (playMorse pattern unitMs) tl
      = ⟨tl.now + (pattern.length - 1) * unitMs, tl.tones ++ onsetTones unitMs tl.now pattern⟩ :=
  runEffects_playMorseLoop unitMs pattern.length pattern 0 tl (by simp)

/-- C2 (code defect): `playMorse` keeps its caller suspended only for the gaps
between symbols, `(pattern.length - 1) * unitMs`, because `beep` returns without
waiting for its tone. For the pattern ".-" at 200 ms per unit that is 200 ms
where the timing law gives `(1*1 + 1*3 + (1+1-1)*1) * 200 = 1000`, and the call
returns when the last tone, scheduled at 200 for 600 ms, has only just started. -/
theorem playMorse_elapsed :
    (∀ (pattern : JsString) (unitMs : Nat),
      elapsed (playMorse pattern unitMs) = (pattern.length - 1) * unitMs) ∧
    elapsed (playMorse ".-".toList 200) = 200 ∧
    (1 * 1 + 1 * 3 + (1 + 1 - 1) * 1) * 200 = 1000 ∧
    tonesOf (playMorse ".-".toList 200) = [⟨0, 200⟩, ⟨200, 600⟩] := by
  refine ⟨?_, by decide, by decide, by decide⟩
  intro pattern unitMs
  simp [elapsed, runEffects_playMorse]

/-- C3 (code defect): the tones of one `playMorse` call start one unit apart
whatever their durations, since `beep` returns without waiting for its tone.
For the pattern "-." at 200 ms per unit the dash sounds from 0 to 600 and the
dot starts at 200: before the dash has ended, and well before the dash plus a
one-unit gap (800) has elapsed. -/
theorem playMorse_tone_onsets :
    (∀ (pattern : JsString) (unitMs : Nat),
      tonesOf (playMorse pattern unitMs) = onsetTones unitMs 0 pattern) ∧
    ∃ t1 t2 : Tone, tonesOf (playMorse "-.".toList 200) = [t1, t2] ∧
      t1 = ⟨0, 600⟩ ∧ t2 = ⟨200, 200⟩ ∧
      t2.start < t1.start + t1.durationMs ∧
      ¬ (t2.start ≥ t1.start + t1.durationMs + 200) := by
  refine ⟨?_, ⟨0, 600⟩, ⟨200, 200⟩, by decide, rfl, rfl, by decide, by decide⟩
  intro pattern unitMs
  simp [tonesOf, runEffects_playMorse]

/-! ## Word playback -/

theorem alphabet_upper_fixed :
    ∀ c ∈ alphabet, (c.toNat < 128 ∧ c.toUpper = c) ∧
      (c.toLower.toNat < 128 ∧ c.toLower.toUpper = c) ∧ isJsWhitespace c = false := by
  decide

theorem upperChar_of_mem_alphabet (ext : Char → JsString) (c : Char) (hc : c ∈ alphabet) :
    upperChar ext c = [c] := by
  obtain ⟨⟨h1, h2⟩, _⟩ := alphabet_upper_fixed c hc
  simp [upperChar, h1, h2]

theorem playWordLoop_of_table (ext : Char → JsString) (unitMs len : Nat) (rest : List Char) :
    ∀ (i : Nat), i + rest.length = len → (∀ c ∈ rest, (MORSE [c]).isSome = true) →
      ∃ patterns : List JsString,
        List.Forall₂ (fun c p => MORSE [c] = some p) rest patterns ∧
        playWordLoop ext unitMs len i rest =
          List.intersperse (WordCall.sleep (unitMs * 3))
            (patterns.map (fun p => WordCall.playMorse p unitMs)) := by
  induction rest with
  | nil => intro i _ _; exact ⟨[], List.Forall₂.nil, by simp [playWordLoop]⟩
  | cons c rest ih =>
    intro i hlen hall
    have hlen2 : (i + 1) + rest.length = len := by simp at hlen; omega
    obtain ⟨ps, hps, heq⟩ := ih (i + 1) hlen2 (fun x hx => hall x (List.mem_cons_of_mem _ hx))
    have hsome := hall c (List.mem_cons_self _ _)
    obtain ⟨p, hp⟩ := Option.isSome_iff_exists.mp hsome
    have hmem : c ∈ alphabet := MORSE_key_mem_alphabet c p hp
    obtain ⟨q, hq1, hq2, _⟩ := MORSE_table_facts c hmem
    have hpq : p = q := by rw [hp] at hq1; exact Option.some.inj hq1
    subst hpq
    refine ⟨p :: ps, List.Forall₂.cons hp hps, ?_⟩
    rw [playWordLoop, upperChar_of_mem_alphabet ext c hmem, hp]
    simp only [hq2, if_false, heq]
    cases hps with
    | nil =>
      have hi : ¬ i < len - 1 := by simp at hlen; omega
      simp [hi]
    | cons h1 h2 =>
      have hi : i < len - 1 := by simp at hlen; omega
      simp [hi]

/-! ## The gesture decoder -/

theorem clearHoldTimeout_frame (s : WriteState) :
    (clearHoldTimeout s).now = s.now ∧ (clearHoldTimeout s).isHolding = s.isHolding ∧
    (clearHoldTimeout s).holdStart = s.holdStart := by
  unfold clearHoldTimeout clearTimeout
  cases s.holdTimeout <;> simp

theorem checkWrite_frame (target pattern : JsString) (s : WriteState) :
    (checkWrite target pattern s).now = s.now ∧
    (checkWrite target pattern s).isHolding = s.isHolding ∧
    (checkWrite target pattern s).holdStart = s.holdStart := by
  unfold checkWrite setTimeout
  simp only
  split
  · simp
  · split <;> simp

theorem nextWriteTarget_frame (r : MathRandom) (s : WriteState) :
    (nextWriteTarget r s).now = s.now ∧ (nextWriteTarget r s).isHolding = s.isHolding ∧
    (nextWriteTarget r s).holdStart = s.holdStart := by
  unfold nextWriteTarget clearWrite
  obtain ⟨h1, h2, h3⟩ := clearHoldTimeout_frame
    { s with writeTarget := randomKey r, inputPattern := [], writeResult := none }
  exact ⟨h1, h2, h3⟩

theorem fire_frame (rand : Nat → MathRandom) (t : Timer) (s : WriteState) :
    (fire rand t s).now = s.now ∧ (fire rand t s).isHolding = s.isHolding ∧
    (fire rand t s).holdStart = s.holdStart := by
  unfold fire
  split
  · rename_i p tg _
    obtain ⟨h1, h2, h3⟩ := checkWrite_frame tg p { s with submitted := s.submitted ++ [(s.now, p)] }
    exact ⟨h1, h2, h3⟩
  · obtain ⟨h1, h2, h3⟩ := nextWriteTarget_frame (rand s.draws) { s with draws := s.draws + 1 }
    exact ⟨h1, h2, h3⟩

theorem earliest_mem : ∀ (l : List Timer) (t : Timer), earliest l = some t → t ∈ l := by
  intro l
  induction l with
  | nil => intro t h; simp [earliest] at h
  | cons a l ih =>
    intro t h
    rw [earliest] at h
    cases hl : earliest l with
    | none => rw [hl] at h; simp at h; simp [h]
    | some u =>
      rw [hl] at h
      simp only at h
      split at h
      · simp at h; subst h; exact List.mem_cons_of_mem _ (ih u hl)
      · simp at h; simp [h]

theorem advanceTo_frame (rand : Nat → MathRandom) (limit : Nat) :
    ∀ (fuel : Nat) (s : WriteState), s.now ≤ limit →
      (advanceTo rand fuel limit s).now = limit ∧
      (advanceTo rand fuel limit s).isHolding = s.isHolding ∧
      (advanceTo rand fuel limit s).holdStart = s.holdStart := by
  intro fuel
  induction fuel with
  | zero => intro s h; simp [advanceTo, h]
  | succ fuel ih =>
    intro s h
    rw [advanceTo]
    cases he : earliest (s.timers.filter (fun t => decide (t.due ≤ limit))) with
    | none => simp [h]
    | some t =>
      simp only
      have hm := earliest_mem _ _ he
      have hdue : t.due ≤ limit := by simpa using (List.mem_filter.mp hm).2
      obtain ⟨f1, f2, f3⟩ := fire_frame rand t (dequeue t s)
      have hnow : (fire rand t (dequeue t s)).now ≤ limit := by
        rw [f1]; exact max_le h hdue
      obtain ⟨g1, g2, g3⟩ := ih _ hnow
      exact ⟨g1, g2.trans f2, g3.trans f3⟩

theorem advance_frame (rand : Nat → MathRandom) (dt : Nat) (s : WriteState) :
    (advance rand dt s).now = s.now + dt ∧ (advance rand dt s).isHolding = s.isHolding ∧
    (advance rand dt s).holdStart = s.holdStart :=
  advanceTo_frame rand (s.now + dt) _ s (Nat.le_add_right _ _)

theorem addSymbol_inputPattern (sym : Char) (s : WriteState) :
    (addSymbol sym s).inputPattern = s.inputPattern ++ [sym] := by
  simp [addSymbol]

theorem onPressEnd_holding (s : WriteState) (h : s.isHolding = true) :
    (onPressEnd s).inputPattern =
      s.inputPattern ++ [if (s.now : Int) - (s.holdStart : Int) ≥ HOLD_THRESHOLD then '-' else '.'] := by
  simp [onPressEnd, h, addSymbol]

theorem press_of_duration (rand : Nat → MathRandom) (s : WriteState) (d : Nat) :
    (onPressEnd (advance rand d (onPressStart s))).inputPattern =
      (advance rand d (onPressStart s)).inputPattern ++ [if d ≥ 220 then '-' else '.'] := by
  obtain ⟨h1, h2, h3⟩ := advance_frame rand d (onPressStart s)
  rw [onPressEnd_holding _ (by rw [h2]; rfl), h1, h3]
  simp [onPressStart, HOLD_THRESHOLD]

/-! ## Dictation -/

theorem WORDS_chars : ∀ w ∈ WORDS, w ≠ [] ∧ ∀ c ∈ w, c ∈ alphabet := by decide!

theorem randomKey_mem (r : MathRandom) : randomKey r ∈ keys := List.get_mem _ _ _

theorem randomWord_mem (r : MathRandom) : randomWord r ∈ WORDS := List.get_mem _ _ _

theorem keys_have_patterns : ∀ k ∈ keys, (MORSE k).isSome = true := by decide

theorem toUpperCase_of_alphabet (ext : Char → JsString) (w : JsString)
    (hw : ∀ c ∈ w, c ∈ alphabet) : toUpperCase ext w = w := by
  induction w with
  | nil => rfl
  | cons c w ih =>
    have h1 := upperChar_of_mem_alphabet ext c (hw c (List.mem_cons_self _ _))
    have h2 := ih (fun x hx => hw x (List.mem_cons_of_mem _ hx))
    unfold toUpperCase at *
    simp [List.flatMap_cons, h1, h2]

theorem toUpperCase_of_eqUpToCase (ext : Char → JsString) (typed w : JsString)
    (hw : ∀ c ∈ w, c ∈ alphabet) (h : EqUpToCase typed w) : toUpperCase ext typed = w := by
  unfold EqUpToCase at h
  induction h with
  | nil => rfl
  | cons hab _ ih =>
    rename_i a b l1 l2 _
    have hb := hw b (List.mem_cons_self _ _)
    obtain ⟨⟨h1, h2⟩, ⟨h3, h4⟩, _⟩ := alphabet_upper_fixed b hb
    have h5 := ih (fun x hx => hw x (List.mem_cons_of_mem _ hx))
    have h6 : upperChar ext a = [b] := by
      rcases hab with rfl | rfl
      · simp [upperChar, h1, h2]
      · simp [upperChar, h3, h4]
    unfold toUpperCase at *
    simp [List.flatMap_cons, h5, h6]

theorem filter_isAZ09_of_alphabet (w : JsString) (hw : ∀ c ∈ w, c ∈ alphabet) :
    w.filter isAZ09 = w :=
  List.filter_eq_self.mpr (fun c hc => isAZ09_of_mem_alphabet c (hw c hc))

theorem dropWhile_of_none (p : Char → Bool) (w : JsString) (hw : ∀ c ∈ w, p c = false) :
    w.dropWhile p = w := by
  cases w with
  | nil => rfl
  | cons c w => simp [List.dropWhile, hw c (List.mem_cons_self _ _)]

theorem trim_of_alphabet (w : JsString) (hw : ∀ c ∈ w, c ∈ alphabet) : trim w = w := by
  have hws : ∀ c ∈ w, isJsWhitespace c = false := fun c hc => (alphabet_upper_fixed c (hw c hc)).2.2
  unfold trim
  rw [dropWhile_of_none _ w hws, dropWhile_of_none _ w.reverse (fun c hc => hws c (List.mem_reverse.mp hc)),
    List.reverse_reverse]

/-- C8: for every word of `WORDS` as the dictation target and every typed string
equal to it up to letter case, the input handler stores the word itself
(upper-cased, nothing deleted) and `checkListening` grades it correct,
incrementing the streak. -/
theorem dictation_case_insensitive (ext : Char → JsString) (r : MathRandom) (unitMs : Nat)
    (s : ListenState) (typed : JsString) (hw : s.listenWord ∈ WORDS)
    (htyped : EqUpToCase typed s.listenWord) :
    (onListenAnswerChange ext typed s).listenAnswer = s.listenWord ∧
    (checkListening ext r unitMs (onListenAnswerChange ext typed s)).1.listenResult
      = some Result.ok ∧
    (checkListening ext r unitMs (onListenAnswerChange ext typed s)).1.listenStreak
      = s.listenStreak + 1 := by
  obtain ⟨hne, hchars⟩ := WORDS_chars _ hw
  have h1 : (onListenAnswerChange ext typed s).listenAnswer = s.listenWord := by
    simp [onListenAnswerChange, toUpperCase_of_eqUpToCase ext typed _ hchars htyped,
      filter_isAZ09_of_alphabet _ hchars]
  have h2 : (onListenAnswerChange ext typed s).listenWord = s.listenWord := rfl
  have h3 : (onListenAnswerChange ext typed s).listenStreak = s.listenStreak := rfl
  refine ⟨h1, ?_, ?_⟩ <;>
  · unfold checkListening
    simp only [h1, h2, h3, trim_of_alphabet _ hchars, toUpperCase_of_alphabet ext _ hchars]
    simp [hne]

/-! ## Graders -/

theorem trim_of_whitespace (s : JsString) (h : ∀ c ∈ s, isJsWhitespace c = true) :
    trim s = [] := by
  have : s.dropWhile isJsWhitespace = [] := by
    induction s with
    | nil => rfl
    | cons c s ih =>
      simp only [List.dropWhile, h c (List.mem_cons_self _ _)]
      exact ih (fun x hx => h x (List.mem_cons_of_mem _ hx))
  simp [trim, this]

/-- C7 (amended): in each of the three graders, a submission the grader treats as
empty (in `checkAnswer` and `checkListening` an answer that is empty once
trimmed, so in particular every answer made only of white space; in `checkWrite`
the empty pattern) is not graded: the whole state, streak included, is returned
unchanged and no timeout is set. For every other submission and every prior
streak, the streak becomes the prior streak plus one when the submission
(trimmed and upper-cased, for the two text graders) matches the target, and 0
when it does not. -/
theorem graders_streak_trimmed (ext : Char → JsString) (r : MathRandom) (unitMs : Nat)
    (p : PracticeState) (l : ListenState) (w : WriteState) (pattern : JsString) :
    ((checkAnswer ext r unitMs p).1.streak
        = (if toUpperCase ext (trim p.answer) = [] then p.streak
           else if toUpperCase ext (trim p.answer) = p.practiceTarget then p.streak + 1 else 0) ∧
      (toUpperCase ext (trim p.answer) = [] → checkAnswer ext r unitMs p = (p, [])) ∧
      ((∀ c ∈ p.answer, isJsWhitespace c = true) → checkAnswer ext r unitMs p = (p, []))) ∧
    ((checkListening ext r unitMs l).1.listenStreak
        = (if toUpperCase ext (trim l.listenAnswer) = [] then l.listenStreak
           else if toUpperCase ext (trim l.listenAnswer) = l.listenWord then l.listenStreak + 1
           else 0) ∧
      (toUpperCase ext (trim l.listenAnswer) = [] → checkListening ext r unitMs l = (l, [])) ∧
      ((∀ c ∈ l.listenAnswer, isJsWhitespace c = true) →
        checkListening ext r unitMs l = (l, []))) ∧
    ((checkWrite w.writeTarget pattern w).writeStreak
        = (if pattern = [] then w.writeStreak
           else if some pattern = MORSE w.writeTarget then w.writeStreak + 1 else 0) ∧
      (pattern = [] → checkWrite w.writeTarget pattern w = w)) := by
  have hA : toUpperCase ext (trim p.answer) = [] → checkAnswer ext r unitMs p = (p, []) := by
    intro h
    unfold checkAnswer
    simp only [h, if_true]
  have hL : toUpperCase ext (trim l.listenAnswer) = [] →
      checkListening ext r unitMs l = (l, []) := by
    intro h
    unfold checkListening
    simp only [h, if_true]
  have hW : pattern = [] → checkWrite w.writeTarget pattern w = w := by
    intro h
    unfold checkWrite
    simp only [h, if_true]
  refine ⟨⟨?_, hA, ?_⟩, ⟨?_, hL, ?_⟩, ?_, hW⟩
  · by_cases h : toUpperCase ext (trim p.answer) = []
    · rw [hA h, if_pos h]
    · unfold checkAnswer
      simp only [if_neg h]
      split <;> simp
  · intro hws
    exact hA (by rw [trim_of_whitespace _ hws]; rfl)
  · by_cases h : toUpperCase ext (trim l.listenAnswer) = []
    · rw [hL h, if_pos h]
    · unfold checkListening
      simp only [if_neg h]
      split <;> simp
  · intro hws
    exact hL (by rw [trim_of_whitespace _ hws]; rfl)
  · by_cases h : pattern = []
    · rw [hW h, if_pos h]
    · unfold checkWrite setTimeout
      simp only [if_neg h]
      split <;> simp

/-- C7 (counterexample): the answer " " is a non-empty string that does not match
the target A, yet `checkAnswer` trims it to the empty string and returns without
grading: the streak stays 3 (neither 4 nor 0) and no result is set. -/
theorem checkAnswer_blank_is_ignored :
    " ".toList ≠ [] ∧
    toUpperCase asciiOnly (trim " ".toList) ≠ "A".toList ∧
    (checkAnswer asciiOnly zeroRandom 300 ⟨"A".toList, " ".toList, none, 3⟩).1.streak = 3 ∧
    (checkAnswer asciiOnly zeroRandom 300 ⟨"A".toList, " ".toList, none, 3⟩).1.result = none := by
  decide

/-- C10 (amended): on a matching submission, `checkAnswer` and `checkListening`
themselves set the result to correct, empty the input and install a freshly
drawn target (a key of `MORSE`, a member of `WORDS`); their 250 ms and 300 ms
timeouts only autoplay the new target. `checkWrite` itself sets the result to
correct and sets a 600 ms timeout, leaving the input pattern and the target as
they are; it is that timeout's `nextWriteTarget` which draws the new target,
empties the input and resets the result. -/
theorem check_effects (ext : Char → JsString) (r : MathRandom) (unitMs : Nat)
    (p : PracticeState) (l : ListenState) (w : WriteState) (pattern : JsString)
    (hp : toUpperCase ext (trim p.answer) ≠ [])
    (hpm : toUpperCase ext (trim p.answer) = p.practiceTarget)
    (hl : toUpperCase ext (trim l.listenAnswer) ≠ [])
    (hlm : toUpperCase ext (trim l.listenAnswer) = l.listenWord)
    (hw : pattern ≠ [])
    (hwm : some pattern = MORSE w.writeTarget) :
    ((checkAnswer ext r unitMs p).1.result = some Result.ok ∧
      (checkAnswer ext r unitMs p).1.answer = [] ∧
      (checkAnswer ext r unitMs p).1.practiceTarget = randomKey r ∧
      randomKey r ∈ keys ∧
      (checkAnswer ext r unitMs p).2 = [(250, Autoplay.morse (MORSE (randomKey r)) unitMs)]) ∧
    ((checkListening ext r unitMs l).1.listenResult = some Result.ok ∧
      (checkListening ext r unitMs l).1.listenAnswer = [] ∧
      (checkListening ext r unitMs l).1.listenWord = randomWord r ∧
      randomWord r ∈ WORDS ∧
      (checkListening ext r unitMs l).2 = [(300, Autoplay.word (randomWord r) unitMs)]) ∧
    ((checkWrite w.writeTarget pattern w).writeResult = some Result.ok ∧
      (checkWrite w.writeTarget pattern w).inputPattern = w.inputPattern ∧
      (checkWrite w.writeTarget pattern w).writeTarget = w.writeTarget ∧
      (checkWrite w.writeTarget pattern w).timers
        = w.timers ++ [⟨w.nextId, w.now + 600, TimerAction.nextTarget⟩] ∧
      (nextWriteTarget r (checkWrite w.writeTarget pattern w)).inputPattern = [] ∧
      (nextWriteTarget r (checkWrite w.writeTarget pattern w)).writeTarget = randomKey r ∧
      (nextWriteTarget r (checkWrite w.writeTarget pattern w)).writeResult = none) := by
  refine ⟨?_, ?_, ?_⟩
  · have hc : checkAnswer ext r unitMs p =
        (⟨randomKey r, [], some Result.ok, p.streak + 1⟩,
          [(250, Autoplay.morse (MORSE (randomKey r)) unitMs)]) := by
      unfold checkAnswer
      simp only [if_neg hp, if_pos hpm]
    rw [hc]
    exact ⟨rfl, rfl, rfl, randomKey_mem r, rfl⟩
  · have hc : checkListening ext r unitMs l =
        (⟨randomWord r, [], some Result.ok, l.listenStreak + 1⟩,
          [(300, Autoplay.word (randomWord r) unitMs)]) := by
      unfold checkListening
      simp only [if_neg hl, if_pos hlm]
    rw [hc]
    exact ⟨rfl, rfl, rfl, randomWord_mem r, rfl⟩
  · have hc : checkWrite w.writeTarget pattern w =
        (setTimeout TimerAction.nextTarget 600
          { w with writeResult := some Result.ok, writeStreak := w.writeStreak + 1 }).2 := by
      unfold checkWrite
      simp only [if_neg hw, if_pos hwm]
    rw [hc]
    refine ⟨rfl, rfl, rfl, rfl, ?_, ?_, ?_⟩ <;>
    · unfold nextWriteTarget clearWrite clearHoldTimeout clearTimeout setTimeout
      simp only
      split <;> rfl

/-- C10 (counterexample): after `checkWrite` has graded the pattern ".-" correct for
the target A, the input pattern is still ".-" and the target is still A. -/
theorem checkWrite_keeps_input :
    (checkWrite "A".toList ".-".toList
      { initWrite "A".toList with inputPattern := ".-".toList }).inputPattern = ".-".toList ∧
    (checkWrite "A".toList ".-".toList
      { initWrite "A".toList with inputPattern := ".-".toList }).writeResult = some Result.ok ∧
    (checkWrite "A".toList ".-".toList
      { initWrite "A".toList with inputPattern := ".-".toList }).writeTarget = "A".toList := by
  decide

/-- C9 (counterexample): a press starts at time 0; at 300, still holding, a second
press-start arrives and the recorded start becomes 300; the release at 400
appends a dot (100 ms since the second press-start), where 400 ms measured from
the first press-start is a dash. -/
theorem second_press_start_restarts :
    (advance zeroRandoms 300 (onPressStart (initWrite "A".toList))).isHolding = true ∧
    (advance zeroRandoms 300 (onPressStart (initWrite "A".toList))).holdStart = 0 ∧
    (onPressStart (advance zeroRandoms 300 (onPressStart (initWrite "A".toList)))).holdStart
      = 300 ∧
    (onPressEnd (advance zeroRandoms 100 (onPressStart
      (advance zeroRandoms 300 (onPressStart (initWrite "A".toList)))))).inputPattern = ['.'] ∧
    (onPressEnd (advance zeroRandoms 400 (onPressStart (initWrite "A".toList)))).inputPattern
      = ['-'] := by
  decide

/-! ## The auto-submit timer -/

theorem clearHoldTimeout_held (s : WriteState) (h : ∀ t ∈ s.timers, s.holdTimeout = some t.id) :
    (clearHoldTimeout s).timers = [] := by
  unfold clearHoldTimeout
  cases hh : s.holdTimeout with
  | none =>
    simp only
    cases ht : s.timers with
    | nil => rfl
    | cons t ts =>
      have := h t (by rw [ht]; exact List.mem_cons_self _ _)
      rw [hh] at this
      cases this
  | some id =>
    simp only [clearTimeout]
    apply List.filter_eq_nil_iff.mpr
    intro t ht
    have := h t ht
    rw [hh] at this
    simp [Option.some.inj this]

theorem clearHoldTimeout_fields (s : WriteState) :
    (clearHoldTimeout s).now = s.now ∧ (clearHoldTimeout s).writeTarget = s.writeTarget ∧
    (clearHoldTimeout s).inputPattern = s.inputPattern ∧
    (clearHoldTimeout s).holdTimeout = s.holdTimeout ∧
    (clearHoldTimeout s).nextId = s.nextId ∧ (clearHoldTimeout s).submitted = s.submitted ∧
    (clearHoldTimeout s).writeResult = s.writeResult ∧
    (clearHoldTimeout s).writeStreak = s.writeStreak := by
  unfold clearHoldTimeout clearTimeout
  split <;> simp

theorem addSymbol_armed (sym : Char) (s : WriteState)
    (h : ∀ t ∈ s.timers, s.holdTimeout = some t.id) :
    Armed (addSymbol sym s) ∧ (addSymbol sym s).inputPattern = s.inputPattern ++ [sym] ∧
    (addSymbol sym s).submitted = s.submitted ∧ (addSymbol sym s).now = s.now := by
  have hc := clearHoldTimeout_held { s with writeResult := none } h
  obtain ⟨c1, c2, c3, c4, c5, c6, _⟩ := clearHoldTimeout_fields { s with writeResult := none }
  refine ⟨⟨s.nextId, ?_, ?_⟩, ?_, ?_, ?_⟩ <;>
    simp [addSymbol, scheduleAutoSubmit, setTimeout, hc, c1, c2, c3, c4, c5, c6]

theorem advance_lt_armed (rand : Nat → MathRandom) (dt : Nat) (s : WriteState)
    (h : Armed s) (hdt : dt < AUTO_SUBMIT_GAP) :
    advance rand dt s = { s with now := s.now + dt } := by
  obtain ⟨id, ht, _⟩ := h
  unfold advance
  rw [ht]
  simp only [List.length_singleton]
  rw [advanceTo, ht]
  have : ¬ (s.now + AUTO_SUBMIT_GAP ≤ s.now + dt) := by omega
  simp [List.filter, this, earliest]


theorem checkWrite_effects (target pattern : JsString) (s : WriteState) :
    (checkWrite target pattern s).submitted = s.submitted ∧
    (checkWrite target pattern s).holdTimeout = s.holdTimeout ∧
    (checkWrite target pattern s).timers = s.timers ∨
      (checkWrite target pattern s).submitted = s.submitted ∧
      (checkWrite target pattern s).holdTimeout = s.holdTimeout ∧
      (checkWrite target pattern s).timers
        = s.timers ++ [⟨s.nextId, s.now + 600, TimerAction.nextTarget⟩] := by
  unfold checkWrite setTimeout
  simp only
  split
  · simp
  · split <;> simp

theorem nextWriteTarget_effects (r : MathRandom) (s : WriteState) :
    (nextWriteTarget r s).submitted = s.submitted ∧
    ∀ t ∈ (nextWriteTarget r s).timers, t ∈ s.timers := by
  unfold nextWriteTarget clearWrite clearHoldTimeout clearTimeout
  simp only
  split
  · refine ⟨rfl, ?_⟩
    intro t ht
    exact (List.mem_filter.mp ht).1
  · exact ⟨rfl, fun t ht => ht⟩

theorem advanceTo_only_nextTarget (rand : Nat → MathRandom) (limit : Nat) :
    ∀ (fuel : Nat) (s : WriteState), (∀ t ∈ s.timers, t.action = TimerAction.nextTarget) →
      (advanceTo rand fuel limit s).submitted = s.submitted ∧
      ∀ t ∈ (advanceTo rand fuel limit s).timers, t.action = TimerAction.nextTarget := by
  intro fuel
  induction fuel with
  | zero => intro s h; exact ⟨rfl, h⟩
  | succ fuel ih =>
    intro s h
    rw [advanceTo]
    cases he : earliest (s.timers.filter (fun t => decide (t.due ≤ limit))) with
    | none => exact ⟨rfl, h⟩
    | some t =>
      simp only
      have hm := (List.mem_filter.mp (earliest_mem _ _ he)).1
      have hact := h t hm
      have hfire : fire rand t (dequeue t s)
          = nextWriteTarget (rand s.draws) { dequeue t s with draws := s.draws + 1 } := by
        unfold fire
        rw [hact]
        rfl
      obtain ⟨n1, n2⟩ := nextWriteTarget_effects (rand s.draws)
        { dequeue t s with draws := s.draws + 1 }
      have hall : ∀ u ∈ (fire rand t (dequeue t s)).timers, u.action = TimerAction.nextTarget := by
        intro u hu
        rw [hfire] at hu
        have := n2 u hu
        exact h u (List.mem_filter.mp this).1
      obtain ⟨g1, g2⟩ := ih _ hall
      refine ⟨?_, g2⟩
      rw [g1, hfire, n1]
      rfl

theorem advance_ge_armed (rand : Nat → MathRandom) (dt : Nat) (s : WriteState)
    (h : Armed s) (hdt : AUTO_SUBMIT_GAP ≤ dt) :
    (advance rand dt s).submitted = s.submitted ++ [(s.now + AUTO_SUBMIT_GAP, s.inputPattern)] ∧
    pendingAutoSubmits (advance rand dt s) = 0 := by
  obtain ⟨id, ht, _⟩ := h
  unfold advance
  rw [ht]
  simp only [List.length_singleton]
  rw [advanceTo, ht]
  have hle : s.now + AUTO_SUBMIT_GAP ≤ s.now + dt := by omega
  simp only [List.filter, hle, decide_True, earliest]
  generalize hs1 : dequeue ⟨id, s.now + AUTO_SUBMIT_GAP,
    TimerAction.autoSubmit s.inputPattern s.writeTarget⟩ s = s1
  have d1 : s1.timers = [] := by rw [← hs1]; simp [dequeue, ht]
  have d2 : s1.now = s.now + AUTO_SUBMIT_GAP := by rw [← hs1]; simp [dequeue]
  have d3 : s1.submitted = s.submitted := by rw [← hs1]; rfl
  have hfire : fire rand ⟨id, s.now + AUTO_SUBMIT_GAP,
      TimerAction.autoSubmit s.inputPattern s.writeTarget⟩ s1
      = checkWrite s.writeTarget s.inputPattern
          { s1 with submitted := s1.submitted ++ [(s1.now, s.inputPattern)] } := rfl
  rw [hfire]
  generalize hs2 : checkWrite s.writeTarget s.inputPattern
          { s1 with submitted := s1.submitted ++ [(s1.now, s.inputPattern)] } = s2
  have hs2sub : s2.submitted = s.submitted ++ [(s.now + AUTO_SUBMIT_GAP, s.inputPattern)] ∧
      ∀ t ∈ s2.timers, t.action = TimerAction.nextTarget := by
    rw [← hs2]
    rcases checkWrite_effects s.writeTarget s.inputPattern
      { s1 with submitted := s1.submitted ++ [(s1.now, s.inputPattern)] } with ⟨e1, _, e3⟩ | ⟨e1, _, e3⟩
    · rw [e1, e3]; simp [d1, d2, d3]
    · rw [e1, e3]; simp [d1, d2, d3]
  obtain ⟨g1, g2⟩ := advanceTo_only_nextTarget rand (s.now + dt) 2 s2 hs2sub.2
  refine ⟨by rw [g1, hs2sub.1], ?_⟩
  unfold pendingAutoSubmits
  rw [List.length_eq_zero, List.filter_eq_nil_iff]
  intro t ht2
  simp [g2 t ht2]

theorem appendRun_armed (rand : Nat → MathRandom) (rest : List (Nat × Char)) :
    ∀ (s : WriteState), Armed s → (∀ g ∈ rest, g.1 < AUTO_SUBMIT_GAP) →
      Armed (appendRun rand rest s) ∧
      (appendRun rand rest s).submitted = s.submitted ∧
      (appendRun rand rest s).inputPattern = s.inputPattern ++ rest.map Prod.snd := by
  induction rest with
  | nil => intro s h _; exact ⟨h, rfl, by simp [appendRun]⟩
  | cons g rest ih =>
    intro s h hg
    obtain ⟨gap, sym⟩ := g
    have hgap : gap < AUTO_SUBMIT_GAP := hg (gap, sym) (List.mem_cons_self _ _)
    rw [appendRun, advance_lt_armed rand gap s h hgap]
    obtain ⟨id, ht, hh⟩ := h
    have hheld : ∀ t ∈ ({ s with now := s.now + gap } : WriteState).timers,
        ({ s with now := s.now + gap } : WriteState).holdTimeout = some t.id := by
      intro t htm
      simp only [ht, List.mem_singleton] at htm
      subst htm
      exact hh
    obtain ⟨a1, a2, a3, _⟩ := addSymbol_armed sym { s with now := s.now + gap } hheld
    obtain ⟨b1, b2, b3⟩ := ih _ a1 (fun g hgm => hg g (List.mem_cons_of_mem _ hgm))
    refine ⟨b1, by rw [b2, a3], ?_⟩
    rw [b3, a2]
    simp

/-! ## Timer bookkeeping over reachable states -/

theorem wf_congr (s s2 : WriteState) (h : WellFormed s) (h1 : s2.timers = s.timers)
    (h2 : s2.holdTimeout = s.holdTimeout) (h3 : s2.nextId = s.nextId) : WellFormed s2 := by
  unfold WellFormed at *
  rw [h1, h2, h3]
  exact h

theorem wf_filter (p : Timer → Bool) (s s2 : WriteState) (h : WellFormed s)
    (h1 : s2.timers = s.timers.filter p)
    (h2 : s2.holdTimeout = s.holdTimeout) (h3 : s2.nextId = s.nextId) : WellFormed s2 := by
  obtain ⟨w1, w2, w3⟩ := h
  unfold WellFormed
  rw [h1, h2, h3]
  refine ⟨fun t ht => w1 t (List.mem_filter.mp ht).1, fun t ht => w2 t (List.mem_filter.mp ht).1, ?_⟩
  exact List.Nodup.sublist (List.Sublist.map _ (List.filter_sublist _)) w3

theorem wf_push_nextTarget (due : Nat) (s s2 : WriteState) (h : WellFormed s)
    (h1 : s2.timers = s.timers ++ [⟨s.nextId, due, TimerAction.nextTarget⟩])
    (h2 : s2.holdTimeout = s.holdTimeout) (h3 : s2.nextId = s.nextId + 1) : WellFormed s2 := by
  obtain ⟨w1, w2, w3⟩ := h
  unfold WellFormed
  rw [h1, h2, h3]
  refine ⟨?_, ?_, ?_⟩
  · intro t ht hact
    rcases List.mem_append.mp ht with ht | ht
    · exact w1 t ht hact
    · simp only [List.mem_singleton] at ht
      subst ht
      exact absurd rfl hact
  · intro t ht
    rcases List.mem_append.mp ht with ht | ht
    · exact Nat.lt_succ_of_lt (w2 t ht)
    · simp only [List.mem_singleton] at ht
      subst ht
      exact Nat.lt_succ_self _
  · rw [List.map_append, List.nodup_append]
    refine ⟨w3, by simp, ?_⟩
    intro a ha hb
    simp only [List.map_cons, List.map_nil, List.mem_singleton] at hb
    obtain ⟨t, ht, rfl⟩ := List.mem_map.mp ha
    have := w2 t ht
    omega

theorem wf_clearHoldTimeout (s : WriteState) (h : WellFormed s) :
    WellFormed (clearHoldTimeout s) ∧
    ∀ t ∈ (clearHoldTimeout s).timers, t.action = TimerAction.nextTarget := by
  unfold clearHoldTimeout
  cases hh : s.holdTimeout with
  | none =>
    refine ⟨h, ?_⟩
    intro t ht
    by_contra hact
    have := h.1 t ht hact
    rw [hh] at this
    cases this
  | some id =>
    refine ⟨wf_filter (fun t => t.id != id) s _ h rfl rfl rfl, ?_⟩
    intro t ht
    simp only [clearTimeout] at ht
    obtain ⟨ht1, ht2⟩ := List.mem_filter.mp ht
    by_contra hact
    have := h.1 t ht1 hact
    rw [hh] at this
    simp [Option.some.inj this] at ht2

theorem wf_scheduleAutoSubmit (nextPattern : JsString) (s : WriteState) (h : WellFormed s) :
    WellFormed (scheduleAutoSubmit nextPattern s) := by
  obtain ⟨⟨_, w2, w3⟩, hnext⟩ := wf_clearHoldTimeout s h
  obtain ⟨_, _, _, _, c5, _⟩ : (clearHoldTimeout s).now = s.now ∧ True ∧ True ∧ True ∧
      (clearHoldTimeout s).nextId = s.nextId ∧ True := by
    unfold clearHoldTimeout clearTimeout
    split <;> simp
  unfold WellFormed scheduleAutoSubmit setTimeout
  simp only
  refine ⟨?_, ?_, ?_⟩
  · intro t ht hact
    rcases List.mem_append.mp ht with ht | ht
    · exact absurd (hnext t ht) hact
    · simp only [List.mem_singleton] at ht
      subst ht
      rfl
  · intro t ht
    rcases List.mem_append.mp ht with ht | ht
    · exact Nat.lt_succ_of_lt (w2 t ht)
    · simp only [List.mem_singleton] at ht
      subst ht
      exact Nat.lt_succ_self _
  · rw [List.map_append, List.nodup_append]
    refine ⟨w3, by simp, ?_⟩
    intro a ha hb
    simp only [List.map_cons, List.map_nil, List.mem_singleton] at hb
    obtain ⟨t, ht, rfl⟩ := List.mem_map.mp ha
    have := w2 t ht
    omega

theorem wf_addSymbol (sym : Char) (s : WriteState) (h : WellFormed s) :
    WellFormed (addSymbol sym s) := by
  unfold addSymbol
  simp only
  exact wf_congr _ _ (wf_scheduleAutoSubmit (s.inputPattern ++ [sym]) { s with writeResult := none }
    (wf_congr s _ h rfl rfl rfl)) rfl rfl rfl

theorem wf_clearWrite (s : WriteState) (h : WellFormed s) : WellFormed (clearWrite s) :=
  (wf_clearHoldTimeout _ (wf_congr s { s with inputPattern := [], writeResult := none } h
    rfl rfl rfl)).1

theorem wf_nextWriteTarget (r : MathRandom) (s : WriteState) (h : WellFormed s) :
    WellFormed (nextWriteTarget r s) :=
  wf_clearWrite _ (wf_congr s { s with writeTarget := randomKey r } h rfl rfl rfl)

theorem wf_checkWrite (target pattern : JsString) (s : WriteState) (h : WellFormed s) :
    WellFormed (checkWrite target pattern s) := by
  unfold checkWrite
  simp only
  split
  · exact h
  · split
    · exact wf_push_nextTarget (s.now + 600) s _ h rfl rfl rfl
    · exact wf_congr s _ h rfl rfl rfl

theorem wf_fire (rand : Nat → MathRandom) (t : Timer) (s : WriteState) (h : WellFormed s) :
    WellFormed (fire rand t s) := by
  unfold fire
  split
  · exact wf_checkWrite _ _ _ (wf_congr s _ h rfl rfl rfl)
  · exact wf_nextWriteTarget _ _ (wf_congr s _ h rfl rfl rfl)

theorem wf_advanceTo (rand : Nat → MathRandom) (limit : Nat) :
    ∀ (fuel : Nat) (s : WriteState), WellFormed s → WellFormed (advanceTo rand fuel limit s) := by
  intro fuel
  induction fuel with
  | zero => intro s h; exact wf_congr s _ h rfl rfl rfl
  | succ fuel ih =>
    intro s h
    rw [advanceTo]
    split
    · exact wf_congr s _ h rfl rfl rfl
    · rename_i t _
      exact ih _ (wf_fire rand t _ (wf_filter (fun u => u.id != t.id) s _ h rfl rfl rfl))

theorem wf_onPressEnd (s : WriteState) (h : WellFormed s) : WellFormed (onPressEnd s) := by
  unfold onPressEnd
  split
  · exact h
  · exact wf_addSymbol _ _ (wf_congr s _ h rfl rfl rfl)

theorem wf_initWrite (target : JsString) : WellFormed (initWrite target) := by
  simp [WellFormed, initWrite]

theorem wf_of_reachable (rand : Nat → MathRandom) (s : WriteState) (h : Reachable rand s) :
    WellFormed s := by
  induction h with
  | mount target => exact wf_initWrite target
  | pressStart s _ ih => exact wf_congr s _ ih rfl rfl rfl
  | pressEnd s _ ih => exact wf_onPressEnd s ih
  | append sym s _ ih => exact wf_addSymbol sym s ih
  | clear s _ ih => exact wf_clearWrite s ih
  | leaveTab s _ ih => exact (wf_clearHoldTimeout s ih).1
  | wait dt s _ ih => exact wf_advanceTo rand _ _ s ih

theorem length_le_one_of_nodup_const (a : Nat) :
    ∀ (l : List Nat), l.Nodup → (∀ x ∈ l, x = a) → l.length ≤ 1 := by
  intro l hn hall
  match l, hn, hall with
  | [], _, _ => simp
  | [_], _, _ => simp
  | x :: y :: _, hn, hall =>
    have hx := hall x (by simp)
    have hy := hall y (by simp)
    simp [hx, hy] at hn

theorem pendingAutoSubmits_le_one (s : WriteState) (h : WellFormed s) :
    pendingAutoSubmits s ≤ 1 := by
  obtain ⟨w1, _, w3⟩ := h
  unfold pendingAutoSubmits
  have hsub : ((s.timers.filter (fun t => t.action != TimerAction.nextTarget)).map Timer.id).Nodup :=
    List.Nodup.sublist (List.Sublist.map _ (List.filter_sublist _)) w3
  cases hh : s.holdTimeout with
  | none =>
    have : s.timers.filter (fun t => t.action != TimerAction.nextTarget) = [] := by
      apply List.filter_eq_nil_iff.mpr
      intro t ht hact
      have := w1 t ht (by simpa using hact)
      rw [hh] at this
      cases this
    simp [this]
  | some id =>
    have := length_le_one_of_nodup_const id _ hsub (by
      intro x hx
      obtain ⟨t, ht, rfl⟩ := List.mem_map.mp hx
      obtain ⟨ht1, ht2⟩ := List.mem_filter.mp ht
      have := w1 t ht1 (by simpa using ht2)
      rw [hh] at this
      exact (Option.some.inj this).symm)
    simpa using this

/-! ## The event loop runs every callback that is due -/

theorem earliest_eq_none (l : List Timer) (h : earliest l = none) : l = [] := by
  cases l with
  | nil => rfl
  | cons a l =>
    rw [earliest] at h
    split at h
    · cases h
    · split at h <;> cases h

theorem pendingWork_filter_le (p : Timer → Bool) (ts : List Timer) :
    pendingWork (ts.filter p) ≤ pendingWork ts := by
  induction ts with
  | nil => simp
  | cons a ts ih =>
    unfold pendingWork at *
    by_cases hp : p a = true
    · simp [List.filter_cons, hp]; exact ih
    · simp [List.filter_cons, hp]; omega

theorem pendingWork_filter_lt (p : Timer → Bool) (ts : List Timer) (t : Timer) (ht : t ∈ ts)
    (hp : p t = false) : pendingWork (ts.filter p) + timerWeight t ≤ pendingWork ts := by
  induction ts with
  | nil => cases ht
  | cons a ts ih =>
    rcases List.mem_cons.mp ht with rfl | hin
    · have := pendingWork_filter_le p ts
      unfold pendingWork at *
      simp [List.filter_cons, hp]; omega
    · have := ih hin
      unfold pendingWork at *
      by_cases hpa : p a = true
      · simp [List.filter_cons, hpa]; omega
      · simp [List.filter_cons, hpa]; omega

theorem pendingWork_clearHoldTimeout (s : WriteState) :
    pendingWork (clearHoldTimeout s).timers ≤ pendingWork s.timers := by
  unfold clearHoldTimeout clearTimeout
  split
  · exact pendingWork_filter_le _ _
  · exact Nat.le_refl _

theorem pendingWork_fire (rand : Nat → MathRandom) (t : Timer) (s : WriteState) :
    pendingWork (fire rand t s).timers + 1 ≤ pendingWork s.timers + timerWeight t := by
  unfold fire timerWeight
  cases t.action with
  | autoSubmit p tg =>
    show pendingWork (checkWrite tg p _).timers + 1 ≤ pendingWork s.timers + 2
    unfold checkWrite setTimeout
    simp only
    split
    · simp
    · split
      · simp [pendingWork, timerWeight]
      · simp
  | nextTarget =>
    show pendingWork (nextWriteTarget _ _).timers + 1 ≤ pendingWork s.timers + 1
    have := pendingWork_clearHoldTimeout
      { s with draws := s.draws + 1, writeTarget := randomKey (rand s.draws),
               inputPattern := [], writeResult := none }
    unfold nextWriteTarget clearWrite
    simp only at *
    omega

theorem timerWeight_pos (t : Timer) : 1 ≤ timerWeight t ∧ timerWeight t ≤ 2 := by
  unfold timerWeight
  split <;> simp

theorem pendingWork_le (ts : List Timer) : pendingWork ts ≤ 2 * ts.length := by
  induction ts with
  | nil => simp [pendingWork]
  | cons a ts ih =>
    have := (timerWeight_pos a).2
    unfold pendingWork at *
    simp; omega

theorem advanceTo_fires_all_due (rand : Nat → MathRandom) (limit : Nat) :
    ∀ (fuel : Nat) (s : WriteState), pendingWork s.timers < fuel →
      ∀ t ∈ (advanceTo rand fuel limit s).timers, limit < t.due := by
  intro fuel
  induction fuel with
  | zero => intro s h; omega
  | succ fuel ih =>
    intro s h
    rw [advanceTo]
    cases he : earliest (s.timers.filter (fun t => decide (t.due ≤ limit))) with
    | none =>
      intro t ht
      simp only at ht
      have hnil := earliest_eq_none _ he
      by_contra hle
      have : t ∈ s.timers.filter (fun t => decide (t.due ≤ limit)) :=
        List.mem_filter.mpr ⟨ht, by simp; omega⟩
      rw [hnil] at this
      cases this
    | some t =>
      simp only
      apply ih
      have hm := (List.mem_filter.mp (earliest_mem _ _ he)).1
      have h1 := pendingWork_filter_lt (fun u => u.id != t.id) s.timers t hm (by simp)
      have h2 := pendingWork_fire rand t (dequeue t s)
      have h3 : (dequeue t s).timers = s.timers.filter (fun u => u.id != t.id) := rfl
      rw [h3] at h2
      omega

theorem advance_fires_all_due (rand : Nat → MathRandom) (dt : Nat) (s : WriteState) :
    ∀ t ∈ (advance rand dt s).timers, (advance rand dt s).now < t.due := by
  intro t ht
  have h1 : (advance rand dt s).now = s.now + dt := (advance_frame rand dt s).1
  rw [h1]
  exact advanceTo_fires_all_due rand (s.now + dt) _ s
    (Nat.lt_succ_of_le (pendingWork_le s.timers)) t ht

/-! ## The claims about word playback, the press classification and the timer -/

theorem intersperse_sleep_count (k unitMs : Nat) (ps : List JsString) :
    ((List.intersperse (WordCall.sleep k)
        (ps.map (fun p => WordCall.playMorse p unitMs))).filter WordCall.isSleep).length
      = ps.length - 1 := by
  induction ps with
  | nil => rfl
  | cons p ps ih =>
    cases ps with
    | nil => rfl
    | cons q qs =>
      simp only [List.map_cons, List.intersperse_cons_cons, List.length_cons] at *
      simp [List.filter_cons, WordCall.isSleep, ih]

/-- The calls `playWord` awaits: for a word whose characters are all in the code
table, one `playMorse` call per character, with the character's pattern and in
word order, and between two consecutive calls exactly one `sleep(unitMs * 3)`;
no sleep follows the last call, so a word of n characters has n - 1 sleeps. -/
theorem playWord_calls (ext : Char → JsString) (word : JsString) (unitMs : Nat)
    (hword : ∀ c ∈ word, (MORSE [c]).isSome = true) :
    ∃ patterns : List JsString,
      List.Forall₂ (fun c p => MORSE [c] = some p) word patterns ∧
      playWord ext word unitMs =
        List.intersperse (WordCall.sleep (unitMs * 3))
          (patterns.map (fun p => WordCall.playMorse p unitMs)) ∧
      ((playWord ext word unitMs).filter WordCall.isSleep).length = word.length - 1 := by
  obtain ⟨ps, h1, h2⟩ := playWordLoop_of_table ext unitMs word.length word 0 (by simp) hword
  refine ⟨ps, h1, h2, ?_⟩
  unfold playWord
  rw [h2, intersperse_sleep_count, h1.length_eq]

theorem runEffects_calls (calls : List WordCall) :
    ∀ tl : Timeline, runEffects (calls.flatMap WordCall.effects) tl
      = calls.foldl (fun acc c => c.run acc) tl := by
  induction calls with
  | nil => intro tl; rfl
  | cons c cs ih =>
    intro tl
    rw [List.flatMap_cons, runEffects_append, ih, List.foldl_cons]
    cases c with
    | playMorse p u => simp only [WordCall.effects, runEffects_playMorse, WordCall.run]
    | sleep ms => rfl

/-- C4 (code defect): `playWord` does await one `playMorse` call per character
with a `sleep(unitMs * 3)` between consecutive calls and none after the last,
but each `playMorse` call returns at the onset of its character's last tone
(`beep` does not wait for the tone), so the sleep runs while that tone sounds.
For "TOWN" at 200 ms per unit the dash of T sounds from 0 to 600 and the first
dash of O starts at 600: no silence between the two letters, where a letter gap
of three units is 600 ms. For "EE" the second dot starts at 600, 400 ms after
the first one ends. -/
theorem playWord_letter_gap :
    (∀ (ext : Char → JsString) (word : JsString) (unitMs : Nat) (tl : Timeline),
      runEffects (playWordEffects ext word unitMs) tl
        = (playWord ext word unitMs).foldl (fun acc c => c.run acc) tl) ∧
    playWord asciiOnly "TOWN".toList 200 =
      [WordCall.playMorse "-".toList 200, WordCall.sleep 600,
       WordCall.playMorse "---".toList 200, WordCall.sleep 600,
       WordCall.playMorse ".--".toList 200, WordCall.sleep 600,
       WordCall.playMorse "-.".toList 200] ∧
    tonesOf (playWordEffects asciiOnly "TOWN".toList 200) =
      [⟨0, 600⟩, ⟨600, 600⟩, ⟨800, 600⟩, ⟨1000, 600⟩, ⟨1600, 200⟩, ⟨1800, 600⟩, ⟨2000, 600⟩,
       ⟨2600, 600⟩, ⟨2800, 200⟩] ∧
    (∃ t o : Tone, (tonesOf (playWordEffects asciiOnly "TOWN".toList 200)).take 2 = [t, o] ∧
      o.start - (t.start + t.durationMs) = 0 ∧ ¬ (o.start ≥ t.start + t.durationMs + 200 * 3)) ∧
    tonesOf (playWordEffects asciiOnly "EE".toList 200) = [⟨0, 200⟩, ⟨600, 200⟩] := by
  refine ⟨?_, by decide, by decide, ⟨⟨0, 600⟩, ⟨600, 600⟩, by decide, by decide, by decide⟩,
    by decide⟩
  intro ext word unitMs tl
  exact runEffects_calls _ tl

/-- C5: a press-end received while holding appends a dash when the time since
the recorded press-start is at least `HOLD_THRESHOLD` (220 ms) and a dot
otherwise, and leaves the decoder idle; so a press held for `d` milliseconds
appends a dash exactly when `d ≥ 220`: a dot at 219, a dash at 220. -/
theorem onPressEnd_classifies (rand : Nat → MathRandom) (s : WriteState) (d : Nat)
    (h : s.isHolding = true) :
    (onPressEnd s).inputPattern =
      s.inputPattern ++
        [if (s.now : Int) - (s.holdStart : Int) ≥ HOLD_THRESHOLD then '-' else '.'] ∧
    (onPressEnd s).isHolding = false ∧
    (onPressEnd (advance rand d (onPressStart s))).inputPattern =
      (advance rand d (onPressStart s)).inputPattern ++ [if d ≥ 220 then '-' else '.'] := by
  refine ⟨onPressEnd_holding s h, ?_, press_of_duration rand s d⟩
  simp only [onPressEnd, h, addSymbol, scheduleAutoSubmit, setTimeout, Bool.not_true,
    Bool.false_eq_true, if_false]
  exact (clearHoldTimeout_frame _).2.1

theorem onPressEnd_classifies_witness :
    (advance zeroRandoms 219 (onPressStart (initWrite "A".toList))).isHolding = true ∧
    (onPressEnd (advance zeroRandoms 219 (onPressStart (initWrite "A".toList)))).inputPattern
      = ['.'] ∧
    (onPressEnd (advance zeroRandoms 220 (onPressStart (initWrite "A".toList)))).inputPattern
      = ['-'] :=
  ⟨by decide,
   (onPressEnd_classifies zeroRandoms
      (advance zeroRandoms 219 (onPressStart (initWrite "A".toList))) 0 (by decide)).1,
   (onPressEnd_classifies zeroRandoms
      (advance zeroRandoms 220 (onPressStart (initWrite "A".toList))) 0 (by decide)).1⟩

/-- C6 (counterexample): with target E, a dot appended at time 0 is auto-submitted
at 900 and graded correct, which sets the 600 ms timeout of `nextWriteTarget`.
A dot appended at time 1000 arms a new auto-submit timer, but at 1500
`nextWriteTarget` clears the input and that timer: the append at 1000 is never
submitted, however long one waits. -/
theorem append_before_next_target_is_dropped :
    (advance zeroRandoms 1000 (addSymbol '.' (initWrite "E".toList))).submitted
      = [(900, ['.'])] ∧
    pendingAutoSubmits
      (addSymbol '.' (advance zeroRandoms 1000 (addSymbol '.' (initWrite "E".toList)))) = 1 ∧
    (advance zeroRandoms 900
      (addSymbol '.' (advance zeroRandoms 1000 (addSymbol '.' (initWrite "E".toList))))).submitted
      = [(900, ['.'])] ∧
    (advance zeroRandoms 100000
      (addSymbol '.' (advance zeroRandoms 1000 (addSymbol '.' (initWrite "E".toList))))).submitted
      = [(900, ['.'])] := by
  decide

/-- C6 (amended): from a reachable state with no `nextWriteTarget` timeout
pending, a non-empty run of appends each less than `AUTO_SUBMIT_GAP` (900 ms)
after the previous one causes no auto-submit before 900 ms have passed since the
last append, and from then on exactly one: it fires 900 ms after the last append
and submits the input pattern accumulated so far, which is the input present
before the run followed by the appended symbols in order. In every reachable
state at most one auto-submit timer is pending. The input present before a run
is what the last grading left: `checkWrite` never changes the input pattern (so
a mismatch keeps it), while `clearWrite` and `nextWriteTarget` empty it. -/
theorem autoSubmit_once_after_last_append (rand : Nat → MathRandom) (s0 : WriteState)
    (sym0 : Char) (rest : List (Nat × Char))
    (hreach : Reachable rand s0)
    (hnone : ∀ t ∈ s0.timers, t.action ≠ TimerAction.nextTarget)
    (hgaps : ∀ g ∈ rest, g.1 < AUTO_SUBMIT_GAP) :
    (appendRun rand rest (addSymbol sym0 s0)).inputPattern
      = s0.inputPattern ++ sym0 :: rest.map Prod.snd ∧
    (appendRun rand rest (addSymbol sym0 s0)).submitted = s0.submitted ∧
    (∀ d, d < AUTO_SUBMIT_GAP →
      (advance rand d (appendRun rand rest (addSymbol sym0 s0))).submitted = s0.submitted) ∧
    (∀ d, AUTO_SUBMIT_GAP ≤ d →
      (advance rand d (appendRun rand rest (addSymbol sym0 s0))).submitted
        = s0.submitted ++
            [((appendRun rand rest (addSymbol sym0 s0)).now + AUTO_SUBMIT_GAP,
              s0.inputPattern ++ sym0 :: rest.map Prod.snd)]) ∧
    (∀ s, Reachable rand s → pendingAutoSubmits s ≤ 1) ∧
    (∀ (target pattern : JsString) (s : WriteState),
      (checkWrite target pattern s).inputPattern = s.inputPattern) ∧
    (∀ s : WriteState, (clearWrite s).inputPattern = []) ∧
    (∀ (r : MathRandom) (s : WriteState), (nextWriteTarget r s).inputPattern = []) := by
  have hwf := wf_of_reachable rand s0 hreach
  have hheld : ∀ t ∈ s0.timers, s0.holdTimeout = some t.id :=
    fun t ht => hwf.1 t ht (hnone t ht)
  obtain ⟨a1, a2, a3, _⟩ := addSymbol_armed sym0 s0 hheld
  obtain ⟨b1, b2, b3⟩ := appendRun_armed rand rest (addSymbol sym0 s0) a1 hgaps
  have hpat : (appendRun rand rest (addSymbol sym0 s0)).inputPattern
      = s0.inputPattern ++ sym0 :: rest.map Prod.snd := by
    rw [b3, a2]; simp
  refine ⟨hpat, by rw [b2, a3], ?_, ?_, ?_, ?_, ?_, ?_⟩
  · intro d hd
    rw [advance_lt_armed rand d _ b1 hd]
    show (appendRun rand rest (addSymbol sym0 s0)).submitted = _
    rw [b2, a3]
  · intro d hd
    rw [(advance_ge_armed rand d _ b1 hd).1, b2, a3, hpat]
  · intro s hs
    exact pendingAutoSubmits_le_one s (wf_of_reachable rand s hs)
  · intro target pattern s
    unfold checkWrite setTimeout
    simp only
    split
    · rfl
    · split <;> rfl
  · intro s
    exact (clearHoldTimeout_fields _).2.2.1
  · intro r s
    exact (clearHoldTimeout_fields _).2.2.1

theorem autoSubmit_once_after_last_append_witness :
    Reachable zeroRandoms (initWrite "A".toList) ∧
    (appendRun zeroRandoms [(899, '-')] (addSymbol '.' (initWrite "A".toList))).inputPattern
      = ".-".toList ∧
    (advance zeroRandoms 899
      (appendRun zeroRandoms [(899, '-')] (addSymbol '.' (initWrite "A".toList)))).submitted
      = [] ∧
    (advance zeroRandoms (899 + 900)
      (appendRun zeroRandoms [(899, '-')] (addSymbol '.' (initWrite "A".toList)))).submitted
      = [(899 + 900, ".-".toList)] :=
  ⟨Reachable.mount _,
   (autoSubmit_once_after_last_append zeroRandoms (initWrite "A".toList) '.' [(899, '-')]
      (Reachable.mount _) (by decide) (by decide)).1,
   (autoSubmit_once_after_last_append zeroRandoms (initWrite "A".toList) '.' [(899, '-')]
      (Reachable.mount _) (by decide) (by decide)).2.2.1 899 (by decide),
   (autoSubmit_once_after_last_append zeroRandoms (initWrite "A".toList) '.' [(899, '-')]
      (Reachable.mount _) (by decide) (by decide)).2.2.2.1 (899 + 900) (by decide)⟩

theorem graders_streak_trimmed_witness :
    (checkAnswer asciiOnly zeroRandom 300 ⟨"A".toList, "a".toList, none, 3⟩).1.streak = 4 ∧
    (checkAnswer asciiOnly zeroRandom 300 ⟨"A".toList, "\t ".toList, none, 3⟩)
      = (⟨"A".toList, "\t ".toList, none, 3⟩, []) ∧
    (checkListening asciiOnly zeroRandom 300 ⟨"CAT".toList, "dog".toList, none, 5⟩).1.listenStreak
      = 0 ∧
    (checkListening asciiOnly zeroRandom 300 ⟨"CAT".toList, "  ".toList, none, 5⟩)
      = (⟨"CAT".toList, "  ".toList, none, 5⟩, []) ∧
    (checkWrite "A".toList ".-".toList (initWrite "A".toList)).writeStreak = 1 :=
  ⟨(graders_streak_trimmed asciiOnly zeroRandom 300 ⟨"A".toList, "a".toList, none, 3⟩
     ⟨"CAT".toList, "dog".toList, none, 5⟩ (initWrite "A".toList) ".-".toList).1.1,
   (graders_streak_trimmed asciiOnly zeroRandom 300 ⟨"A".toList, "\t ".toList, none, 3⟩
     ⟨"CAT".toList, "  ".toList, none, 5⟩ (initWrite "A".toList) ".-".toList).1.2.2 (by decide),
   (graders_streak_trimmed asciiOnly zeroRandom 300 ⟨"A".toList, "a".toList, none, 3⟩
     ⟨"CAT".toList, "dog".toList, none, 5⟩ (initWrite "A".toList) ".-".toList).2.1.1,
   (graders_streak_trimmed asciiOnly zeroRandom 300 ⟨"A".toList, "\t ".toList, none, 3⟩
     ⟨"CAT".toList, "  ".toList, none, 5⟩ (initWrite "A".toList) ".-".toList).2.1.2.2 (by decide),
   (graders_streak_trimmed asciiOnly zeroRandom 300 ⟨"A".toList, "a".toList, none, 3⟩
     ⟨"CAT".toList, "dog".toList, none, 5⟩ (initWrite "A".toList) ".-".toList).2.2.1⟩

theorem dictation_case_insensitive_witness :
    "CAT".toList ∈ WORDS ∧ EqUpToCase "cat".toList "CAT".toList ∧
    (checkListening asciiOnly zeroRandom 300
      (onListenAnswerChange asciiOnly "cat".toList ⟨"CAT".toList, [], none, 0⟩)).1.listenResult
      = some Result.ok :=
  ⟨by decide!,
   List.Forall₂.cons (Or.inr (by decide)) (List.Forall₂.cons (Or.inr (by decide))
     (List.Forall₂.cons (Or.inr (by decide)) List.Forall₂.nil)),
   (dictation_case_insensitive asciiOnly zeroRandom 300 ⟨"CAT".toList, [], none, 0⟩ "cat".toList
     (by decide!)
     (List.Forall₂.cons (Or.inr (by decide)) (List.Forall₂.cons (Or.inr (by decide))
       (List.Forall₂.cons (Or.inr (by decide)) List.Forall₂.nil)))).2.1⟩

/-- C9 (amended): in a holding state a further press-start keeps the decoder
holding and changes nothing but the recorded start timestamp, which it
overwrites with the time of that press-start; the press-end that follows `d`
milliseconds later classifies `d`, the time since the latest press-start. -/
theorem onPressStart_while_holding (rand : Nat → MathRandom) (s : WriteState) (d : Nat)
    (h : s.isHolding = true) :
    (onPressStart s).isHolding = true ∧
    (onPressStart s).holdStart = s.now ∧
    onPressStart s = { s with holdStart := s.now } ∧
    (onPressEnd (advance rand d (onPressStart s))).inputPattern =
      (advance rand d (onPressStart s)).inputPattern ++ [if d ≥ 220 then '-' else '.'] := by
  refine ⟨rfl, rfl, ?_, press_of_duration rand s d⟩
  unfold onPressStart
  rw [← h]

theorem onPressStart_while_holding_witness :
    (advance zeroRandoms 300 (onPressStart (initWrite "A".toList))).isHolding = true ∧
    (onPressStart (advance zeroRandoms 300 (onPressStart (initWrite "A".toList)))).holdStart
      = 300 ∧
    (onPressEnd (advance zeroRandoms 100 (onPressStart
      (advance zeroRandoms 300 (onPressStart (initWrite "A".toList)))))).inputPattern = ['.'] :=
  ⟨by decide,
   (onPressStart_while_holding zeroRandoms
      (advance zeroRandoms 300 (onPressStart (initWrite "A".toList))) 100 (by decide)).2.1,
   (onPressStart_while_holding zeroRandoms
      (advance zeroRandoms 300 (onPressStart (initWrite "A".toList))) 100 (by decide)).2.2.2⟩

theorem check_effects_witness :
    toUpperCase asciiOnly (trim "a".toList) = "A".toList ∧
    toUpperCase asciiOnly (trim "cat".toList) = "CAT".toList ∧
    some ".-".toList = MORSE "A".toList ∧
    (checkAnswer asciiOnly zeroRandom 300 ⟨"A".toList, "a".toList, none, 3⟩).1.answer = [] ∧
    (checkListening asciiOnly zeroRandom 300
      ⟨"CAT".toList, "cat".toList, none, 5⟩).1.listenAnswer = [] ∧
    (checkWrite "A".toList ".-".toList
      { initWrite "A".toList with inputPattern := ".-".toList }).inputPattern = ".-".toList :=
  ⟨by decide, by decide, by decide,
   (check_effects asciiOnly zeroRandom 300 ⟨"A".toList, "a".toList, none, 3⟩
     ⟨"CAT".toList, "cat".toList, none, 5⟩
     { initWrite "A".toList with inputPattern := ".-".toList } ".-".toList
     (by decide) (by decide) (by decide) (by decide) (by decide) (by decide)).1.2.1,
   (check_effects asciiOnly zeroRandom 300 ⟨"A".toList, "a".toList, none, 3⟩
     ⟨"CAT".toList, "cat".toList, none, 5⟩
     { initWrite "A".toList with inputPattern := ".-".toList } ".-".toList
     (by decide) (by decide) (by decide) (by decide) (by decide) (by decide)).2.1.2.1,
   (check_effects asciiOnly zeroRandom 300 ⟨"A".toList, "a".toList, none, 3⟩
     ⟨"CAT".toList, "cat".toList, none, 5⟩
     { initWrite "A".toList with inputPattern := ".-".toList } ".-".toList
     (by decide) (by decide) (by decide) (by decide) (by decide) (by decide)).2.2.2.1⟩

end MorseCoach
